import Mathlib

/-!
Verification development for the zelix::stl ordered-container engine
(src/include/zelix/rb_tree.h, rbtree.h, map.h, set.h).

The pointer graph of the C++ code is embedded as an arena: nodes live in a
list `heap` and are addressed by their index, so pointer equality becomes
index equality.  The sentinel NIL node is the node allocated first by the
constructor (index 0).  The node allocator defaulted to by the source
(`memory::monotonic_resource`, whose implementation is not part of the
supplied sources) is an arena resource: `allocate` appends a node and
`deallocate` is a logical no-op; calls to `deallocate` are recorded in a
`freed` log so that deallocation behaviour remains observable.

The structural state (`rb_struct`) is separated from the `len_` counter:
no structural routine of the source (`left_rotate`, `right_rotate`,
`transplant`, `insert_fixup`, `delete_fixup`, `search`, `find_node`,
`minimum`, the iterator) reads or writes `len_`; only the public `erase`
and `unified_insert` entry points touch it.  The old engine (rbtree.h) has
no `len_` member at all and therefore operates on `rb_struct` directly.

All loops of the source are modelled with explicit fuel; the fuel
`heap.length + 1` bounds every loop on a well-formed tree, since each loop
step moves along a child or parent link to a node not visited before.
-/

namespace ZelixSTL

/-- Tree node, the shared shape of `__rb_node` (key only, `β := Unit`) and
`__rb_pair` (key and value): key, value, colour flag `red`, and the three
structural links `left`, `right`, `parent` as arena indices
(rb_tree.h lines 40-65). -/
structure rb_node (α β : Type) where
  key : α
  val : β
  red : Bool
  left : Nat
  right : Nat
  parent : Nat
deriving DecidableEq, Repr

/-- The structural part of a tree object: the node arena, the `root_` and
`nil_` members (arena indices), and the log of `deallocate` calls. -/
structure rb_struct (α β : Type) where
  heap : List (rb_node α β)
  root : Nat
  nil : Nat
  freed : List Nat
deriving DecidableEq, Repr

/-- A full `rb_tree` object of rb_tree.h: structural state plus the `len_`
member.  The constructor of the source never initializes `len_`, so the
initial value of `len` is a parameter of `rb_init` below. -/
structure rb_tree (α β : Type) where
  s : rb_struct α β
  len : Nat
deriving DecidableEq, Repr

variable {α β : Type} [LinearOrder α] [Inhabited α] [Inhabited β]

/-- Dereference an arena index (reading a node through a pointer). -/
def nd (t : rb_struct α β) (i : Nat) : rb_node α β :=
  t.heap.getD i ⟨default, default, false, 0, 0, 0⟩

/-- Write the `left` field of node `i` (a `x->left = j` assignment). -/
def setL (t : rb_struct α β) (i j : Nat) : rb_struct α β :=
  { t with heap := t.heap.set i { nd t i with left := j } }

/-- Write the `right` field of node `i` (a `x->right = j` assignment). -/
def setR (t : rb_struct α β) (i j : Nat) : rb_struct α β :=
  { t with heap := t.heap.set i { nd t i with right := j } }

/-- Write the `parent` field of node `i` (a `x->parent = j` assignment). -/
def setP (t : rb_struct α β) (i j : Nat) : rb_struct α β :=
  { t with heap := t.heap.set i { nd t i with parent := j } }

/-- Write the `red` field of node `i` (a `x->red = b` assignment). -/
def setRed (t : rb_struct α β) (i : Nat) (b : Bool) : rb_struct α β :=
  { t with heap := t.heap.set i { nd t i with red := b } }

/-- Modelled from the spec: the memory resource `allocate` operation
(§4.1, §6; the concrete `memory::monotonic_resource` is not among the
supplied sources).  An arena allocation appends the node and returns its
index as the new pointer. -/
def allocate (t : rb_struct α β) (n : rb_node α β) : Nat × rb_struct α β :=
  (t.heap.length, { t with heap := t.heap ++ [n] })

/-- Modelled from the spec: the memory resource `deallocate` operation
(§4.1, §6).  For the arena resource it is a logical no-op on storage; the
call is recorded in the `freed` log so deallocation stays observable. -/
def deallocate (t : rb_struct α β) (i : Nat) : rb_struct α β :=
  { t with freed := t.freed ++ [i] }

/-- Fuel large enough for every loop of the source on a well-formed tree:
one more than the number of arena slots. -/
def fuelOf (t : rb_struct α β) : Nat := t.heap.length + 1

/-- The structural work of the constructor (rb_tree.h lines 201-215 and
rbtree.h lines 78-84): allocate the sentinel with default key/value, colour
black and null links, point its three links at itself, and let `root_` be
the sentinel. -/
def rb_init_s (k0 : α) (v0 : β) : rb_struct α β :=
  { heap := [⟨k0, v0, false, 0, 0, 0⟩], root := 0, nil := 0, freed := [] }

/-- The constructor of rb_tree.h (lines 201-215).  It initializes `root_`
and `nil_` but never `len_`; the indeterminate initial value of `len_` is
modelled by the parameter `len0`. -/
def rb_init (k0 : α) (v0 : β) (len0 : Nat) : rb_tree α β :=
  ⟨rb_init_s k0 v0, len0⟩

/-- The shared descent loop of `rb_tree::search` (rb_tree.h lines 303-315)
and `rb_tree::find_node` (rbtree.h lines 374-386): walk from `x`, going
left when `key < x->key`, right when `x->key < key`, stopping at a match.
Returns the sentinel index when the loop exits with `x == nil_`. -/
def find_go (t : rb_struct α β) (k : α) : Nat → Nat → Nat
  | 0, _ => t.nil
  | fuel + 1, x =>
    if x = t.nil then t.nil
    else if k < (nd t x).key then find_go t k fuel ((nd t x).left)
    else if (nd t x).key < k then find_go t k fuel ((nd t x).right)
    else x

/-- `rb_tree::find_node` of the old engine (rbtree.h lines 374-386):
returns the matching node or the sentinel. -/
def find_node (t : rb_struct α β) (k : α) : Nat := find_go t k (fuelOf t) t.root

/-- `rb_tree::search` of the new engine (rb_tree.h lines 303-317): the same
descent loop, but when it falls off the tree it throws
`except::element_not_found` instead of returning the sentinel
(`Except.error ()` models the thrown exception). -/
def search (t : rb_struct α β) (k : α) : Except Unit Nat :=
  let r := find_go t k (fuelOf t) t.root
  if r = t.nil then Except.error () else Except.ok r

/-- Loop of `rb_tree::minimum` (rb_tree.h lines 589-594, rbtree.h lines
366-371): descend left links until the left child is the sentinel. -/
def min_go (t : rb_struct α β) : Nat → Nat → Nat
  | 0, x => x
  | fuel + 1, x => if (nd t x).left = t.nil then x else min_go t fuel ((nd t x).left)

/-- `rb_tree::minimum`: leftmost node of the subtree rooted at `x`. -/
def minimum (t : rb_struct α β) (x : Nat) : Nat := min_go t (fuelOf t) x

/-- `rb_tree::left_rotate` (rb_tree.h lines 398-415, textually identical in
rbtree.h lines 175-192), with every read taken from the state current at
that line of the source. -/
def left_rotate (t0 : rb_struct α β) (x : Nat) : rb_struct α β :=
  let y := (nd t0 x).right
  let t1 := setR t0 x ((nd t0 y).left)
  let t2 := if (nd t1 y).left ≠ t1.nil then setP t1 ((nd t1 y).left) x else t1
  let t3 := setP t2 y ((nd t2 x).parent)
  let t4 :=
    if (nd t3 x).parent = t3.nil then { t3 with root := y }
    else if x = (nd t3 ((nd t3 x).parent)).left then setL t3 ((nd t3 x).parent) y
    else setR t3 ((nd t3 x).parent) y
  let t5 := setL t4 y x
  setP t5 x y

/-- `rb_tree::right_rotate` (rb_tree.h lines 418-437, rbtree.h lines
195-214), the mirror image of `left_rotate`. -/
def right_rotate (t0 : rb_struct α β) (x : Nat) : rb_struct α β :=
  let y := (nd t0 x).left
  let t1 := setL t0 x ((nd t0 y).right)
  let t2 := if (nd t1 y).right ≠ t1.nil then setP t1 ((nd t1 y).right) x else t1
  let t3 := setP t2 y ((nd t2 x).parent)
  let t4 :=
    if (nd t3 x).parent = t3.nil then { t3 with root := y }
    else if x = (nd t3 ((nd t3 x).parent)).right then setR t3 ((nd t3 x).parent) y
    else setL t3 ((nd t3 x).parent) y
  let t5 := setR t4 y x
  setP t5 x y

/-- `rb_tree::transplant` (rb_tree.h lines 497-506, rbtree.h lines
274-283): replace subtree `u` with subtree `v` in the parent linkage.  The
final `v->parent = u->parent` is performed unconditionally, even when `v`
is the sentinel. -/
def transplant (t0 : rb_struct α β) (u v : Nat) : rb_struct α β :=
  let t1 :=
    if (nd t0 u).parent = t0.nil then { t0 with root := v }
    else if u = (nd t0 ((nd t0 u).parent)).left then setL t0 ((nd t0 u).parent) v
    else setR t0 ((nd t0 u).parent) v
  setP t1 v ((nd t1 u).parent)

/-- The `while (z->parent->red)` loop of `rb_tree::insert_fixup`
(rb_tree.h lines 440-492, rbtree.h lines 217-269), one constructor case per
source branch; the recursion consumes one fuel per loop iteration. -/
def insert_fixup_go : Nat → rb_struct α β → Nat → rb_struct α β
  | 0, t, _ => t
  | fuel + 1, t, z =>
    if (nd t ((nd t z).parent)).red then
      if (nd t z).parent = (nd t ((nd t ((nd t z).parent)).parent)).left then
        if (nd t ((nd t ((nd t ((nd t z).parent)).parent)).right)).red then
          -- Case 1: uncle is red
          let t := setRed t ((nd t z).parent) false
          let t := setRed t ((nd t ((nd t ((nd t z).parent)).parent)).right) false
          let t := setRed t ((nd t ((nd t z).parent)).parent) true
          insert_fixup_go fuel t ((nd t ((nd t z).parent)).parent)
        else
          -- Case 2: z is right child
          let z1 := if z = (nd t ((nd t z).parent)).right then (nd t z).parent else z
          let t := if z = (nd t ((nd t z).parent)).right then left_rotate t ((nd t z).parent) else t
          -- Case 3: z is left child
          let t := setRed t ((nd t z1).parent) false
          let t := setRed t ((nd t ((nd t z1).parent)).parent) true
          let t := right_rotate t ((nd t ((nd t z1).parent)).parent)
          insert_fixup_go fuel t z1
      else
        if (nd t ((nd t ((nd t ((nd t z).parent)).parent)).left)).red then
          -- Case 1 (mirror): uncle is red
          let t := setRed t ((nd t z).parent) false
          let t := setRed t ((nd t ((nd t ((nd t z).parent)).parent)).left) false
          let t := setRed t ((nd t ((nd t z).parent)).parent) true
          insert_fixup_go fuel t ((nd t ((nd t z).parent)).parent)
        else
          -- Case 2 (mirror): z is left child
          let z1 := if z = (nd t ((nd t z).parent)).left then (nd t z).parent else z
          let t := if z = (nd t ((nd t z).parent)).left then right_rotate t ((nd t z).parent) else t
          -- Case 3 (mirror): z is right child
          let t := setRed t ((nd t z1).parent) false
          let t := setRed t ((nd t ((nd t z1).parent)).parent) true
          let t := left_rotate t ((nd t ((nd t z1).parent)).parent)
          insert_fixup_go fuel t z1
    else t

/-- `rb_tree::insert_fixup`: run the loop, then force the root black
(`root_->red = false`, rb_tree.h line 493). -/
def insert_fixup (t : rb_struct α β) (z : Nat) : rb_struct α β :=
  let t1 := insert_fixup_go (fuelOf t) t z
  setRed t1 t1.root false

/-- The descent loop of `rb_tree::unified_insert` (rb_tree.h lines 369-382)
and of the old `rb_tree::insert` (rbtree.h lines 98-111): track the last
real node `y`; `some y` means the loop fell off the tree at child-of-`y`,
`none` means an equal key was met (the duplicate exit).  Fuel exhaustion
(unreachable on a well-formed tree) is mapped to the duplicate exit, which
leaves the structure unchanged. -/
def ins_go (t : rb_struct α β) (k : α) : Nat → Nat → Nat → Option Nat
  | 0, _, _ => none
  | fuel + 1, x, y =>
    if x = t.nil then some y
    else if k < (nd t x).key then ins_go t k fuel ((nd t x).left) x
    else if (nd t x).key < k then ins_go t k fuel ((nd t x).right) x
    else none

/-- The structural part of the insertion link-up shared by
`rb_tree::unified_insert` (rb_tree.h lines 365-395) and the old
`rb_tree::insert` (rbtree.h lines 94-121): descend; on an equal key
deallocate the freshly allocated node `c` and stop; otherwise hang `c`
below `y` and rebalance. -/
def insert_link (t : rb_struct α β) (c : Nat) : rb_struct α β :=
  match ins_go t ((nd t c).key) (fuelOf t) t.root t.nil with
  | none => deallocate t c
  | some y =>
    let t := setP t c y
    let t :=
      if y = t.nil then { t with root := c }
      else if (nd t c).key < (nd t y).key then setL t y c
      else setR t y c
    insert_fixup t c

/-- `rb_tree::insert` / `rb_tree::unified_insert` of the new engine
(rb_tree.h lines 224-235 and 365-395): allocate a red node with sentinel
children (the `nullptr` parent of the allocation call is modelled by the
node's own index; it is overwritten before any use), increment `len_`
unconditionally, then run the link-up — on the duplicate exit `len_` stays
incremented. -/
def insert (t : rb_tree α β) (k : α) (v : β) : rb_tree α β :=
  let a := allocate t.s ⟨k, v, true, t.s.nil, t.s.nil, t.s.heap.length⟩
  ⟨insert_link a.2 a.1, t.len + 1⟩

/-- `rb_tree::insert` of the old engine (rbtree.h lines 94-121): identical
allocation and link-up; the old engine has no `len_` member. -/
def old_insert (t : rb_struct α β) (k : α) (v : β) : rb_struct α β :=
  let a := allocate t ⟨k, v, true, t.nil, t.nil, t.heap.length⟩
  insert_link a.2 a.1

/-- The `while (x != root_ && x->red == false)` loop of
`rb_tree::delete_fixup` (rb_tree.h lines 509-584, textually identical in
rbtree.h lines 286-361).  Returns the state and the final `x`, to which the
trailing `x->red = false` is applied by `delete_fixup`. -/
def delete_fixup_go : Nat → rb_struct α β → Nat → rb_struct α β × Nat
  | 0, t, x => (t, x)
  | fuel + 1, t, x =>
    if x ≠ t.root ∧ (nd t x).red = false then
      if x = (nd t ((nd t x).parent)).left then
        let w := (nd t ((nd t x).parent)).right
        let s1 :=
          if (nd t w).red then
            -- Case 1: sibling is red
            let t := setRed t w false
            let t := setRed t ((nd t x).parent) true
            let t := left_rotate t ((nd t x).parent)
            (t, (nd t ((nd t x).parent)).right)
          else (t, w)
        let t := s1.1
        let w := s1.2
        if (nd t ((nd t w).left)).red = false ∧ (nd t ((nd t w).right)).red = false then
          -- Case 2: sibling's children are black
          let t := setRed t w true
          delete_fixup_go fuel t ((nd t x).parent)
        else
          let s2 :=
            if (nd t ((nd t w).right)).red = false then
              -- Case 3: sibling's right child is black
              let t := setRed t ((nd t w).left) false
              let t := setRed t w true
              let t := right_rotate t w
              (t, (nd t ((nd t x).parent)).right)
            else (t, w)
          let t := s2.1
          let w := s2.2
          -- Case 4: sibling's right child is red
          let t := setRed t w ((nd t ((nd t x).parent)).red)
          let t := setRed t ((nd t x).parent) false
          let t := setRed t ((nd t w).right) false
          let t := left_rotate t ((nd t x).parent)
          delete_fixup_go fuel t t.root
      else
        let w := (nd t ((nd t x).parent)).left
        let s1 :=
          if (nd t w).red then
            -- Case 1 (mirror): sibling is red
            let t := setRed t w false
            let t := setRed t ((nd t x).parent) true
            let t := right_rotate t ((nd t x).parent)
            (t, (nd t ((nd t x).parent)).left)
          else (t, w)
        let t := s1.1
        let w := s1.2
        if (nd t ((nd t w).right)).red = false ∧ (nd t ((nd t w).left)).red = false then
          -- Case 2 (mirror): sibling's children are black
          let t := setRed t w true
          delete_fixup_go fuel t ((nd t x).parent)
        else
          let s2 :=
            if (nd t ((nd t w).left)).red = false then
              -- Case 3 (mirror): sibling's left child is black
              let t := setRed t ((nd t w).right) false
              let t := setRed t w true
              let t := left_rotate t w
              (t, (nd t ((nd t x).parent)).left)
            else (t, w)
          let t := s2.1
          let w := s2.2
          -- Case 4 (mirror): sibling's left child is red
          let t := setRed t w ((nd t ((nd t x).parent)).red)
          let t := setRed t ((nd t x).parent) false
          let t := setRed t ((nd t w).left) false
          let t := right_rotate t ((nd t x).parent)
          delete_fixup_go fuel t t.root
    else (t, x)

/-- `rb_tree::delete_fixup`: run the loop, then `x->red = false`
(rb_tree.h line 585). -/
def delete_fixup (t : rb_struct α β) (x : Nat) : rb_struct α β :=
  let r := delete_fixup_go (fuelOf t) t x
  setRed r.1 r.2 false

/-- The structural splice of a found node `z`, shared verbatim by
`rb_tree::erase` of the new engine (rb_tree.h lines 247-283) and of the old
engine (rbtree.h lines 129-164): the three `transplant` cases with the
BST successor, the `deallocate(z)` call, and the conditional
`delete_fixup(x)`.  Note the `x->parent = y` assignment of the two-children
case is performed even when `x` is the sentinel, and `transplant` writes
`v->parent` even when `v` is the sentinel. -/
def erase_node (t0 : rb_struct α β) (z : Nat) : rb_struct α β :=
  if (nd t0 z).left = t0.nil then
    let y0c := (nd t0 z).red
    let x := (nd t0 z).right
    let t := transplant t0 z ((nd t0 z).right)
    let t := deallocate t z
    if y0c = false then delete_fixup t x else t
  else if (nd t0 z).right = t0.nil then
    let y0c := (nd t0 z).red
    let x := (nd t0 z).left
    let t := transplant t0 z ((nd t0 z).left)
    let t := deallocate t z
    if y0c = false then delete_fixup t x else t
  else
    let y := minimum t0 ((nd t0 z).right)
    let y0c := (nd t0 y).red
    let x := (nd t0 y).right
    let t :=
      if (nd t0 y).parent = z then setP t0 x y
      else
        let t := transplant t0 y ((nd t0 y).right)
        let t := setR t y ((nd t z).right)
        setP t ((nd t y).right) y
    let t := transplant t z y
    let t := setL t y ((nd t z).left)
    let t := setP t ((nd t y).left) y
    let t := setRed t y ((nd t z).red)
    let t := deallocate t z
    if y0c = false then delete_fixup t x else t

/-- `rb_tree::erase` of the new engine (rb_tree.h lines 238-284): return
false at once when `len_ == 0`; otherwise decrement `len_` FIRST, then call
`search`, which throws `element_not_found` when the key is absent
(`Except.error` carries the tree state left behind by the escaped
exception: length decremented, structure untouched).  The source's
`if (z == nil_) return false` check is dead code, because `search` never
returns the sentinel. -/
def erase (t : rb_tree α β) (k : α) : Except (rb_tree α β) (Bool × rb_tree α β) :=
  if t.len = 0 then Except.ok (false, t)
  else
    match search t.s k with
    | Except.error _ => Except.error ⟨t.s, t.len - 1⟩
    | Except.ok z => Except.ok (true, ⟨erase_node t.s z, t.len - 1⟩)

/-- `rb_tree::erase` of the old engine (rbtree.h lines 124-165):
`find_node`, return false on the sentinel, otherwise the same structural
splice. -/
def old_erase (t : rb_struct α β) (k : α) : Bool × rb_struct α β :=
  let z := find_node t k
  if z = t.nil then (false, t) else (true, erase_node t z)

/-- `rb_tree::contains` of the new engine (rb_tree.h lines 287-290):
`search(key) != nil_`.  Since `search` throws on a missing key, the
comparison against `nil_` is dead and `contains` propagates the throw. -/
def contains (t : rb_tree α β) (k : α) : Except Unit Bool :=
  match search t.s k with
  | Except.error e => Except.error e
  | Except.ok z => Except.ok (decide (z ≠ t.s.nil))

/-- `rb_tree::contains` of the old engine (rbtree.h line 168):
`find_node(root_, key) != nil_`, a total boolean. -/
def old_contains (t : rb_struct α β) (k : α) : Bool :=
  decide (find_node t k ≠ t.nil)

/-- `rb_tree::size` (rb_tree.h lines 292-295): returns `len_`. -/
def size (t : rb_tree α β) : Nat := t.len

/-- `rb_tree::empty` (rb_tree.h lines 297-300): `len_ == 0`. -/
def empty (t : rb_tree α β) : Bool := decide (t.len = 0)

/-- `map::get` (map.h lines 108-111): `return tree_.search(key);` — it
returns the NODE produced by `search` (the raw `__rb_pair` pointer), not
the node's `value` member; the `->value` projection the declared `Value&`
return type calls for is missing from the source. -/
def map_get (t : rb_tree α β) (k : α) : Except Unit Nat := search t.s k

/-- The ascent loop of `iterator::operator++` (rb_tree.h lines 143-150):
climb parent links while the current node is its parent's right child;
deliver the first ancestor reached from the left (or the sentinel). -/
def climb_go (t : rb_struct α β) : Nat → Nat → Nat → Nat
  | 0, _, y => y
  | fuel + 1, n, y =>
    if y ≠ t.nil ∧ n = (nd t y).right then climb_go t fuel y ((nd t y).parent) else y

/-- `iterator::operator++` (rb_tree.h lines 134-153): the in-order
successor — leftmost node of the right subtree when there is one (the
descent loop is the `minimum` loop), otherwise the parent-link ascent. -/
def succ_id (t : rb_struct α β) (x : Nat) : Nat :=
  if (nd t x).right ≠ t.nil then minimum t ((nd t x).right)
  else climb_go t (fuelOf t) x ((nd t x).parent)

/-- `rb_tree::begin` (rb_tree.h lines 344-352): `end()` on an empty tree,
else the leftmost node from the root (the loop is the `minimum` loop). -/
def begin_id (t : rb_struct α β) : Nat :=
  if t.root = t.nil then t.nil else minimum t t.root

/-- `rb_tree::end` (rb_tree.h lines 354-357): the sentinel. -/
def end_id (t : rb_struct α β) : Nat := t.nil

/-- Forward iteration from a node until the sentinel, one `operator++` per
step (how a `begin() != end()` loop walks the tree). -/
def iter_go (t : rb_struct α β) : Nat → Nat → List Nat
  | 0, _ => []
  | fuel + 1, x => if x = t.nil then [] else x :: iter_go t fuel (succ_id t x)

/-- The node indices visited by a full `begin()`-to-`end()` iteration. -/
def iter_ids (t : rb_struct α β) : List Nat := iter_go t (fuelOf t) (begin_id t)

/-- The keys yielded by a full `begin()`-to-`end()` iteration. -/
def iter_keys (t : rb_struct α β) : List α :=
  (iter_ids t).map (fun i => (nd t i).key)

/-- Recursive count of real (non-sentinel) nodes reachable from `x`; the
fuel bounds the recursion depth. -/
def cnt_go (t : rb_struct α β) : Nat → Nat → Nat
  | 0, _ => 0
  | fuel + 1, x =>
    if x = t.nil then 0
    else cnt_go t fuel ((nd t x).left) + 1 + cnt_go t fuel ((nd t x).right)

/-- Number of real nodes reachable from the root. -/
def real_count (t : rb_struct α β) : Nat := cnt_go t (fuelOf t) t.root

/-- Functional binary trees labelled with the arena index and the key of
each node; the shape a well-formed pointer heap spells out. -/
inductive IT (α : Type) where
  | nil : IT α
  | node : IT α → Nat → α → IT α → IT α

/-- In-order list of arena indices of a functional tree. -/
def it_ids {α : Type} : IT α → List Nat
  | IT.nil => []
  | IT.node L i _ R => it_ids L ++ i :: it_ids R

/-- In-order list of keys of a functional tree. -/
def it_keysT {α : Type} : IT α → List α
  | IT.nil => []
  | IT.node L _ k R => it_keysT L ++ k :: it_keysT R

/-- Binary-search-tree ordering of a functional tree: left keys strictly
below the node key, right keys strictly above. -/
def BSTP : IT α → Prop
  | IT.nil => True
  | IT.node L _ k R =>
      BSTP L ∧ BSTP R ∧ (∀ a ∈ it_keysT L, a < k) ∧ (∀ b ∈ it_keysT R, k < b)

/-- `IsRep t p i T`: in heap `t`, index `i` is the root of a pointer
subtree of shape `T` whose parent field is `p`; every node of `T` is a real
in-range arena slot whose child and parent links agree with `T`. -/
inductive IsRep (t : rb_struct α β) : Nat → Nat → IT α → Prop where
  | nil : ∀ p, IsRep t p t.nil IT.nil
  | node : ∀ p i L R, i ≠ t.nil → i < t.heap.length → (nd t i).parent = p →
      IsRep t i ((nd t i).left) L → IsRep t i ((nd t i).right) R →
      IsRep t p i (IT.node L i ((nd t i).key) R)

/-- `Climbs t n y j s`: starting the `operator++` ascent loop with current
node `n` and ancestor `y`, the loop exits delivering `j` after `s`
iterations. -/
inductive Climbs (t : rb_struct α β) : Nat → Nat → Nat → Nat → Prop where
  | exit : ∀ n y, (y = t.nil ∨ n ≠ (nd t y).right) → Climbs t n y y 0
  | step : ∀ n y j s, y ≠ t.nil → n = (nd t y).right →
      Climbs t y ((nd t y).parent) j s → Climbs t n y j (s + 1)

/-- A freshly constructed set (`rb_init` with the charitable choice
`len0 = 0` for the uninitialized `len_`). -/
def empty0 : rb_tree Int Unit := rb_init 0 () 0

/-- `empty0` after `insert(10)`. -/
def tA : rb_tree Int Unit := insert empty0 10 ()

/-- `empty0` after `insert(10); insert(20)`. -/
def tAB : rb_tree Int Unit := insert tA 20 ()

/-- `empty0` after `insert(10); insert(20); insert(30)` — the concrete
scenario of spec §8. -/
def tABC : rb_tree Int Unit := insert tAB 30 ()

/-- `empty0` after `insert(10); insert(10)` — a duplicate insert. -/
def tdup : rb_tree Int Unit := insert tA 10 ()

/-- The tree delivered by `erase(20)` on `tABC` (the successful branch). -/
def t4 : rb_tree Int Unit := ((erase tABC 20).toOption.getD (false, tABC)).2

/-- The tree delivered by `erase(20)` on `tAB` (the successful branch). -/
def t9 : rb_tree Int Unit := ((erase tAB 20).toOption.getD (false, tAB)).2

/-- Old engine (rbtree.h): a fresh tree after `insert(10)`. -/
def oldA : rb_struct Int Unit := old_insert (rb_init_s 0 ()) 10 ()

/-- A fresh map (`len0 = 0`) after `insert(1, 5)`. -/
def m1 : rb_tree Int Int := insert (rb_init 0 0 0) 1 5

/-- `m1` after the duplicate `insert(1, 7)`. -/
def mdup : rb_tree Int Int := insert m1 1 7

/-- The functional shape of `tAB`: node 1 (key 10) at the root with node 2
(key 20) as right child. -/
def TW : IT Int := IT.node IT.nil 1 10 (IT.node IT.nil 2 20 IT.nil)

/-- `search` is the `find_node` descent with the sentinel outcome turned
into a thrown `element_not_found`. -/
theorem search_eq_find (t : rb_struct α β) (k : α) :
    search t k = if find_node t k = t.nil then Except.error () else Except.ok (find_node t k) := rfl

/-- Inversion: a heap subtree of shape `IT.nil` sits at the sentinel. -/
theorem isRep_nil_inv {t : rb_struct α β} {p x : Nat} (h : IsRep t p x IT.nil) : x = t.nil := by
  cases h
  rfl

/-- Inversion of the `IsRep` node case. -/
theorem isRep_node_inv {t : rb_struct α β} {p x j : Nat} {L R : IT α} {k : α}
    (h : IsRep t p x (IT.node L j k R)) :
    x = j ∧ j ≠ t.nil ∧ j < t.heap.length ∧ (nd t j).parent = p ∧
      k = (nd t j).key ∧ IsRep t j ((nd t j).left) L ∧ IsRep t j ((nd t j).right) R := by
  cases h with
  | node p i L R hne hlt hpar hL hR => exact ⟨rfl, hne, hlt, hpar, rfl, hL, hR⟩

/-- Every node of a represented subtree is an in-range arena slot. -/
theorem ids_lt {t : rb_struct α β} {p i : Nat} {T : IT α} (h : IsRep t p i T) :
    ∀ a ∈ it_ids T, a < t.heap.length := by
  induction h with
  | nil p => intro a ha; simp [it_ids] at ha
  | node p i L R hne hlt hpar hL hR ihL ihR =>
    intro a ha
    simp only [it_ids, List.mem_append, List.mem_cons] at ha
    rcases ha with h1 | h2 | h3
    · exact ihL a h1
    · exact h2 ▸ hlt
    · exact ihR a h3

/-- A duplicate-free list of numbers below `n` has at most `n` entries. -/
theorem nodup_len_le (l : List Nat) (n : Nat) (hnd : l.Nodup) (hlt : ∀ a ∈ l, a < n) :
    l.length ≤ n := by
  classical
  have h1 : l.toFinset.card = l.length := List.toFinset_card_of_nodup hnd
  have h2 : l.toFinset ⊆ Finset.range n := by
    intro a ha
    exact Finset.mem_range.2 (hlt a (List.mem_toFinset.1 ha))
  have h3 := Finset.card_le_card h2
  simpa [h1, Finset.card_range] using h3

/-- Head of an append is the head of the nonempty left part. -/
theorem headD_append {l q : List Nat} {d : Nat} (h : l ≠ []) : (l ++ q).headD d = l.headD d := by
  cases l with
  | nil => exact absurd rfl h
  | cons a r => rfl

/-- The `minimum` descent loop reaches the first in-order node of a
represented subtree once its fuel covers the subtree size. -/
theorem min_go_first {t : rb_struct α β} :
    ∀ (T : IT α) (p i : Nat), IsRep t p i T → T ≠ IT.nil →
      ∀ f, (it_ids T).length ≤ f → min_go t f i = (it_ids T).headD t.nil := by
  intro T
  induction T with
  | nil => intro p i _ hne; exact absurd rfl hne
  | node L j k R ihL ihR =>
    intro p i h _ f hf
    obtain ⟨rfl, hne0, hlt0, hpar, hk, hLrep, hRrep⟩ := isRep_node_inv h
    obtain ⟨f1, rfl⟩ : ∃ f1, f = f1 + 1 := ⟨f - 1, by simp [it_ids] at hf; omega⟩
    cases L with
    | nil =>
      have hl0 : (nd t i).left = t.nil := isRep_nil_inv hLrep
      simp [min_go, hl0, it_ids]
    | node LL l0 lk RR =>
      obtain ⟨hltop, hlne, _, _, _, _, _⟩ := isRep_node_inv hLrep
      have hLne : (nd t i).left ≠ t.nil := by rw [hltop]; exact hlne
      have hone : min_go t (f1 + 1) i = min_go t f1 ((nd t i).left) := by
        simp [min_go, hLne]
      rw [hone]
      have hrec := ihL i ((nd t i).left) hLrep (by simp) f1
        (by simp [it_ids] at hf ⊢; omega)
      rw [hrec]
      have hLne2 : it_ids (IT.node LL l0 lk RR) ≠ [] := by simp [it_ids]
      exact (headD_append hLne2).symm

/-- The `operator++` ascent loop delivers the node the `Climbs` relation
describes, for any fuel above the number of ascent steps. -/
theorem climb_go_eq {t : rb_struct α β} {n y j s : Nat} (h : Climbs t n y j s) :
    ∀ f, s < f → climb_go t f n y = j := by
  induction h with
  | exit n y hcond =>
    intro f hf
    obtain ⟨f1, rfl⟩ : ∃ f1, f = f1 + 1 := ⟨f - 1, by omega⟩
    have hneg : ¬(y ≠ t.nil ∧ n = (nd t y).right) := by
      rcases hcond with h1 | h2
      · intro hand; exact hand.1 h1
      · intro hand; exact h2 hand.2
    simp [climb_go, hneg]
  | step n y j s hy hn hrec ih =>
    intro f hf
    obtain ⟨f1, rfl⟩ : ∃ f1, f = f1 + 1 := ⟨f - 1, by omega⟩
    have hpos : y ≠ t.nil ∧ n = (nd t y).right := ⟨hy, hn⟩
    simp only [climb_go, if_pos hpos]
    exact ih f1 (by omega)

/-- Iteration starting at the sentinel visits nothing. -/
theorem iter_go_nil {t : rb_struct α β} : ∀ f, iter_go t f t.nil = [] := by
  intro f
  cases f with
  | zero => rfl
  | succ f1 => simp [iter_go]

/-- The reachable-node count of a represented subtree is its size. -/
theorem cnt_go_eq {t : rb_struct α β} :
    ∀ (T : IT α) (p i : Nat), IsRep t p i T →
      ∀ f, (it_ids T).length ≤ f → cnt_go t f i = (it_ids T).length := by
  intro T
  induction T with
  | nil =>
    intro p i h f _
    have hx := isRep_nil_inv h
    subst hx
    cases f with
    | zero => simp [cnt_go, it_ids]
    | succ f1 => simp [cnt_go, it_ids]
  | node L j k R ihL ihR =>
    intro p i h f hf
    obtain ⟨rfl, hne0, _, _, _, hLrep, hRrep⟩ := isRep_node_inv h
    obtain ⟨f1, rfl⟩ : ∃ f1, f = f1 + 1 := ⟨f - 1, by simp [it_ids] at hf; omega⟩
    have hL := ihL i ((nd t i).left) hLrep f1 (by simp [it_ids] at hf ⊢; omega)
    have hR := ihR i ((nd t i).right) hRrep f1 (by simp [it_ids] at hf ⊢; omega)
    simp only [cnt_go, if_neg hne0, hL, hR, it_ids]
    simp
    omega

/-- Reading the keys of the in-order index list gives the in-order key
list. -/
theorem keys_of_ids {t : rb_struct α β} {p i : Nat} {T : IT α} (h : IsRep t p i T) :
    (it_ids T).map (fun a => (nd t a).key) = it_keysT T := by
  induction h with
  | nil p => simp [it_ids, it_keysT]
  | node p i L R hne hlt hpar hL hR ihL ihR => simp [it_ids, it_keysT, ihL, ihR]

/-- Gluing two sorted runs around a separating key keeps them sorted. -/
theorem sorted_glue {l1 l2 : List α} {k : α}
    (h1 : List.Sorted (fun a b => a < b) l1) (h2 : List.Sorted (fun a b => a < b) l2)
    (ha : ∀ a ∈ l1, a < k) (hb : ∀ b ∈ l2, k < b) :
    List.Sorted (fun a b => a < b) (l1 ++ k :: l2) := by
  induction l1 with
  | nil =>
    simp only [List.nil_append, List.sorted_cons]
    exact ⟨hb, h2⟩
  | cons a r ih =>
    have hs := List.sorted_cons.mp h1
    have hrest := ih hs.2 (fun x hx => ha x (List.mem_cons_self a r |> fun _ => List.mem_cons_of_mem a hx))
    simp only [List.cons_append, List.sorted_cons]
    refine ⟨?_, hrest⟩
    intro b hbmem
    rcases List.mem_append.mp hbmem with hbl | hbr
    · exact hs.1 b hbl
    · have hak : a < k := ha a (List.mem_cons_self a r)
      rcases List.mem_cons.mp hbr with rfl | hbr2
      · exact hak
      · exact lt_trans hak (hb b hbr2)

/-- BST ordering makes the in-order key list strictly ascending. -/
theorem bstp_sorted : ∀ T : IT α, BSTP T → List.Sorted (fun a b => a < b) (it_keysT T) := by
  intro T
  induction T with
  | nil => intro _; simp [it_keysT]
  | node L j k R ihL ihR =>
    intro h
    obtain ⟨hL, hR, hlt, hgt⟩ := h
    exact sorted_glue (ihL hL) (ihR hR) hlt hgt

/-- Successor-based iteration started at the leftmost node of a
represented subtree lists exactly that subtree in order, then continues at
the node the ascent out of the subtree delivers.  Fuel is accounted
exactly: one unit per visited node. -/
theorem iter_go_subtree {t : rb_struct α β} :
    ∀ (T : IT α) (p i j s f : Nat), IsRep t p i T → T ≠ IT.nil →
      (it_ids T).Nodup → Climbs t i p j s → s + (it_ids T).length ≤ t.heap.length →
      iter_go t ((it_ids T).length + f) (min_go t (fuelOf t) i) =
        it_ids T ++ iter_go t f j := by
  intro T
  induction T with
  | nil => intro p i j s f _ hne; exact absurd rfl hne
  | node L j0 k R ihL ihR =>
    intro p i j s f h _ hnd hc hfuel
    obtain ⟨rfl, hne0, hlt0, hpar, hk, hLrep, hRrep⟩ := isRep_node_inv h
    have hnd2 : (it_ids L ++ i :: it_ids R).Nodup := hnd
    obtain ⟨hndL, hndCR, hdisj⟩ := List.nodup_append.mp hnd2
    have hndR : (it_ids R).Nodup := (List.nodup_cons.mp hndCR).2
    have hflen : s + ((it_ids L).length + (1 + (it_ids R).length)) ≤ t.heap.length := by
      have : (it_ids (IT.node L i k R)).length
          = (it_ids L).length + (1 + (it_ids R).length) := by simp [it_ids]; omega
      omega
    have hstep : iter_go t ((it_ids R).length + f + 1) i
        = i :: (it_ids R ++ iter_go t f j) := by
      have hone : iter_go t ((it_ids R).length + f + 1) i
          = i :: iter_go t ((it_ids R).length + f) (succ_id t i) := by
        simp [iter_go, hne0]
      rw [hone]
      congr 1
      cases R with
      | nil =>
        have hr0 : (nd t i).right = t.nil := isRep_nil_inv hRrep
        have hsucc : succ_id t i = climb_go t (fuelOf t) i ((nd t i).parent) := by
          simp [succ_id, hr0]
        rw [hsucc, hpar, climb_go_eq hc (fuelOf t) (by simp only [fuelOf]; omega)]
        simp [it_ids]
      | node RL r0 rk RR =>
        obtain ⟨hrtop, hrne, _, _, _, _, _⟩ := isRep_node_inv hRrep
        have hrne2 : (nd t i).right ≠ t.nil := by rw [hrtop]; exact hrne
        have hsucc : succ_id t i = min_go t (fuelOf t) ((nd t i).right) := by
          simp [succ_id, hrne2, minimum]
        rw [hsucc]
        have hcR : Climbs t ((nd t i).right) i j (s + 1) := by
          refine Climbs.step _ _ _ _ hne0 rfl ?_
          rw [hpar]
          exact hc
        exact ihR i ((nd t i).right) j (s + 1) f hRrep (by simp) hndR hcR
          (by simp [it_ids] at hflen ⊢; omega)
    cases L with
    | nil =>
      have hl0 : (nd t i).left = t.nil := isRep_nil_inv hLrep
      have hmin : min_go t (fuelOf t) i = i := by
        simp [min_go, fuelOf, hl0]
      rw [hmin]
      have harith : (it_ids (IT.node IT.nil i k R)).length + f
          = (it_ids R).length + f + 1 := by simp [it_ids]; omega
      rw [harith, hstep]
      simp [it_ids]
    | node LL l0 lk RR =>
      obtain ⟨hltop, hlne, _, _, _, _, _⟩ := isRep_node_inv hLrep
      have hlr : (nd t i).left ≠ (nd t i).right := by
        cases R with
        | nil =>
          rw [isRep_nil_inv hRrep, hltop]
          exact hlne
        | node RL r0 rk RR2 =>
          obtain ⟨hrtop, _, _, _, _, _, _⟩ := isRep_node_inv hRrep
          rw [hltop, hrtop]
          intro hEq
          have h1 : l0 ∈ it_ids (IT.node LL l0 lk RR) := by simp [it_ids]
          have h2 : r0 ∈ i :: it_ids (IT.node RL r0 rk RR2) := by simp [it_ids]
          exact hdisj h1 (by rw [hEq]; exact h2)
      have hclimbL : Climbs t ((nd t i).left) i i 0 := Climbs.exit _ _ (Or.inr hlr)
      have hLih := ihL i ((nd t i).left) i 0 ((it_ids R).length + f + 1) hLrep (by simp)
        hndL hclimbL (by simp [it_ids] at hflen ⊢; omega)
      have hminT : min_go t (fuelOf t) i
          = (it_ids (IT.node (IT.node LL l0 lk RR) i k R)).headD t.nil :=
        min_go_first _ _ _ h (by simp) _ (by simp [it_ids, fuelOf] at hflen ⊢; omega)
      have hminL : min_go t (fuelOf t) ((nd t i).left)
          = (it_ids (IT.node LL l0 lk RR)).headD t.nil :=
        min_go_first _ _ _ hLrep (by simp) _ (by simp [it_ids, fuelOf] at hflen ⊢; omega)
      have hLne2 : it_ids (IT.node LL l0 lk RR) ≠ [] := by simp [it_ids]
      have hheads : (it_ids (IT.node (IT.node LL l0 lk RR) i k R)).headD t.nil
          = (it_ids (IT.node LL l0 lk RR)).headD t.nil := headD_append hLne2
      rw [hminT, hheads, ← hminL]
      have harith2 : (it_ids (IT.node (IT.node LL l0 lk RR) i k R)).length + f
          = (it_ids (IT.node LL l0 lk RR)).length + ((it_ids R).length + f + 1) := by
        simp [it_ids]
        omega
      rw [harith2, hLih, hstep]
      simp [it_ids]

/-- A full `begin()`-to-`end()` iteration of a well-formed tree visits
exactly the in-order index list of its shape. -/
theorem iter_ids_eq {t : rb_struct α β} {T : IT α}
    (h : IsRep t t.nil t.root T) (hnd : (it_ids T).Nodup) :
    iter_ids t = it_ids T := by
  cases T with
  | nil =>
    have hr := isRep_nil_inv h
    simp [iter_ids, begin_id, hr, iter_go_nil, it_ids]
  | node L j0 k R =>
    obtain ⟨hroot, hne0, hlt0, hpar, hk, hLrep, hRrep⟩ := isRep_node_inv h
    have hsz : (it_ids (IT.node L j0 k R)).length ≤ t.heap.length :=
      nodup_len_le _ _ hnd (ids_lt h)
    have hrne : t.root ≠ t.nil := by rw [hroot]; exact hne0
    have hc : Climbs t t.root t.nil t.nil 0 := Climbs.exit _ _ (Or.inl rfl)
    have hmain := iter_go_subtree (t := t) (IT.node L j0 k R) t.nil t.root t.nil 0
      (fuelOf t - (it_ids (IT.node L j0 k R)).length) h (by simp) hnd hc (by omega)
    have hb : begin_id t = min_go t (fuelOf t) t.root := by
      simp [begin_id, minimum, hrne]
    have harith : (it_ids (IT.node L j0 k R)).length
        + (fuelOf t - (it_ids (IT.node L j0 k R)).length) = fuelOf t := by
      simp only [fuelOf] at hsz ⊢
      omega
    rw [harith] at hmain
    calc iter_ids t = iter_go t (fuelOf t) (min_go t (fuelOf t) t.root) := by
          rw [iter_ids, hb]
      _ = it_ids (IT.node L j0 k R)
            ++ iter_go t (fuelOf t - (it_ids (IT.node L j0 k R)).length) t.nil := hmain
      _ = it_ids (IT.node L j0 k R) := by simp [iter_go_nil]

/-- `begin()` of a well-formed tree is its first in-order node. -/
theorem begin_id_eq {t : rb_struct α β} {T : IT α}
    (h : IsRep t t.nil t.root T) (hnd : (it_ids T).Nodup) :
    begin_id t = (it_ids T).headD t.nil := by
  cases T with
  | nil =>
    have hr := isRep_nil_inv h
    simp [begin_id, hr, it_ids]
  | node L j0 k R =>
    obtain ⟨hroot, hne0, _, _, _, _, _⟩ := isRep_node_inv h
    have hrne : t.root ≠ t.nil := by rw [hroot]; exact hne0
    have hsz : (it_ids (IT.node L j0 k R)).length ≤ t.heap.length :=
      nodup_len_le _ _ hnd (ids_lt h)
    have hb : begin_id t = min_go t (fuelOf t) t.root := by
      simp [begin_id, minimum, hrne]
    rw [hb]
    exact min_go_first _ _ _ h (by simp) _ (by simp only [fuelOf]; omega)

/-- C2, the code evaluated at the failing input: on the one-element tree
`{10}` (built by `insert(10)` from a fresh tree), `erase(20)` raises
`ElementNotFound` and leaves `len_` decremented to 0, instead of returning
false with no side effects as the claim states; the structure and the
deallocation log are untouched. -/
theorem C2_erase_absent_raises :
    erase tA 20 = Except.error ⟨tA.s, 0⟩ ∧ size tA = 1 ∧
    real_count tA.s = 1 ∧ iter_keys tA.s = [10] ∧ tA.s.freed = [] :=
  ⟨rfl, rfl, rfl, rfl, rfl⟩

/-- C3, the code evaluated at the failing input: after `insert(1, 5)` a
duplicate `insert(1, 7)` does deallocate the new node (freed log `[2]`),
keeps the root node and every existing node unmodified (value still 5) and
keeps the key set `[1]` — but `size()` grows from 1 to 2, contradicting
the claim that size does not change. -/
theorem C3_duplicate_insert_increments_size :
    size m1 = 1 ∧ size mdup = 2 ∧
    mdup.s.root = m1.s.root ∧ (nd mdup.s mdup.s.root).val = 5 ∧
    mdup.s.heap.take m1.s.heap.length = m1.s.heap ∧
    mdup.s.freed = [2] ∧ iter_keys mdup.s = [1] :=
  ⟨rfl, rfl, rfl, rfl, rfl, rfl, rfl⟩

/-- C4, the code evaluated at the failing input: a freshly constructed
tree reports whatever value the uninitialized `len_` happens to hold, and
after `insert(10); insert(10)` (charitably starting from `len_ = 0`)
`size()` is 2 while only 1 real node is reachable — `size()` is not the
number of real nodes. -/
theorem C4_size_not_node_count :
    (∀ len0 : Nat, size (rb_init (0 : Int) () len0) = len0) ∧
    size tdup = 2 ∧ real_count tdup.s = 1 :=
  ⟨fun _ => rfl, rfl, rfl⟩

/-- C5, the code evaluated at the failing input: on the tree `{10}`,
`contains(20)` raises `ElementNotFound` instead of returning false
(`contains(10)` does return true). -/
theorem C5_contains_raises :
    contains tA 20 = Except.error () ∧ contains tA 10 = Except.ok true ∧ size tA = 1 :=
  ⟨rfl, rfl, rfl⟩

/-- C6 counterexample: after `insert(10); insert(10)` iteration yields
`[10]` — strictly ascending, but it visits 1 element while `size()`
returns 2, refuting "visits exactly `size()` elements". -/
theorem C6_counterexample :
    iter_keys tdup.s = [10] ∧ size tdup = 2 ∧ (iter_keys tdup.s).length ≠ size tdup :=
  ⟨rfl, rfl, by decide⟩

/-- C6 amended: on every well-formed pointer tree (coherent child/parent
links, distinct nodes, BST key order), a full forward iteration yields
exactly the stored keys in strictly ascending order and visits exactly as
many elements as there are real nodes; `begin()` is the leftmost real node,
and on an empty tree `begin()` equals `end()`. -/
theorem C6_iteration (t : rb_struct Int Unit) (T : IT Int)
    (h : IsRep t t.nil t.root T) (hnd : (it_ids T).Nodup) (hb : BSTP T) :
    iter_keys t = it_keysT T ∧
    List.Sorted (fun a b => a < b) (iter_keys t) ∧
    (iter_keys t).length = real_count t ∧
    begin_id t = (it_ids T).headD t.nil ∧
    (t.root = t.nil → begin_id t = end_id t) := by
  have hids := iter_ids_eq h hnd
  have hkeys : iter_keys t = it_keysT T := by
    rw [iter_keys, hids, keys_of_ids h]
  refine ⟨hkeys, ?_, ?_, begin_id_eq h hnd, ?_⟩
  · rw [hkeys]
    exact bstp_sorted T hb
  · have hsz : (it_ids T).length ≤ t.heap.length := nodup_len_le _ _ hnd (ids_lt h)
    have hcnt := cnt_go_eq T t.nil t.root h (fuelOf t) (by simp only [fuelOf]; omega)
    have hklen : (iter_keys t).length = (it_ids T).length := by
      rw [iter_keys, hids]
      simp
    rw [hklen, real_count, hcnt]
  · intro hroot
    simp [begin_id, end_id, hroot]

/-- Witness for `C6_iteration` at the concrete two-node tree `tAB`. -/
theorem C6_iteration_witness :
    iter_keys tAB.s = it_keysT TW ∧
    List.Sorted (fun a b => a < b) (iter_keys tAB.s) ∧
    (iter_keys tAB.s).length = real_count tAB.s ∧
    begin_id tAB.s = (it_ids TW).headD tAB.s.nil ∧
    (tAB.s.root = tAB.s.nil → begin_id tAB.s = end_id tAB.s) :=
  C6_iteration tAB.s TW
    (by
      refine IsRep.node 0 1 IT.nil (IT.node IT.nil 2 20 IT.nil)
        (by decide) (by decide) (by decide) (IsRep.nil 1) ?_
      exact IsRep.node 1 2 IT.nil IT.nil (by decide) (by decide) (by decide)
        (IsRep.nil 2) (IsRep.nil 2))
    (by decide)
    (by norm_num [BSTP, it_keysT])

/-- C7, the code evaluated at the failing input: on the map `{1 ↦ 5}`,
`get(1)` returns the node produced by `search` (arena index 1, the
`__rb_pair` pointer) rather than the stored value 5; on the missing key 2
it does raise `ElementNotFound`, and no default entry is inserted. -/
theorem C7_get_returns_search_node :
    map_get m1 1 = Except.ok 1 ∧ (nd m1.s 1).val = 5 ∧ (nd m1.s 1).key = 1 ∧
    map_get m1 2 = Except.error () ∧ size m1 = 1 :=
  ⟨rfl, rfl, rfl, rfl, rfl⟩

/-- C8, the scenario evaluated on the code: after `insert(10); insert(20);
insert(30)` the root is 20 and black with red children 10 and 30, and
iteration yields `[10, 20, 30]`; `erase(20)` returns true leaving
`size() == 2` and iteration `[10, 30]` — but the second `erase(20)` raises
`ElementNotFound` (leaving `len_ == 1`) instead of returning false as the
claim states. -/
theorem C8_scenario :
    (nd tABC.s tABC.s.root).key = 20 ∧ (nd tABC.s tABC.s.root).red = false ∧
    (nd tABC.s ((nd tABC.s tABC.s.root).left)).key = 10 ∧
    (nd tABC.s ((nd tABC.s tABC.s.root).left)).red = true ∧
    (nd tABC.s ((nd tABC.s tABC.s.root).right)).key = 30 ∧
    (nd tABC.s ((nd tABC.s tABC.s.root).right)).red = true ∧
    iter_keys tABC.s = [10, 20, 30] ∧
    erase tABC 20 = Except.ok (true, t4) ∧
    size t4 = 2 ∧ iter_keys t4.s = [10, 30] ∧
    erase t4 20 = Except.error ⟨t4.s, 1⟩ :=
  ⟨rfl, rfl, rfl, rfl, rfl, rfl, rfl, rfl, rfl, rfl, rfl⟩

/-- C9 counterexample: after `insert(10); insert(20)`, the public
operation `erase(20)` leaves the sentinel's parent link pointing at node 1
(the real node holding key 10), not at the sentinel itself — refuting the
claim that after every public operation the sentinel's links all point to
the sentinel. -/
theorem C9_sentinel_parent_redirected :
    erase tAB 20 = Except.ok (true, t9) ∧
    t9.s.nil = 0 ∧ (nd t9.s 0).parent = 1 ∧ (nd t9.s 1).key = 10 ∧ (1 : Nat) ≠ 0 :=
  ⟨rfl, rfl, rfl, rfl, by decide⟩

/-- C9 amended: at construction the sentinel is black and its left, right
and parent links all point to itself (for every key default and every
initial `len_` value); the sentinel is NOT kept self-linked by every
public operation — `erase` can redirect its PARENT link to a real node and
does not restore it.  In the exhibited run `insert(10); insert(20);
erase(20)`, the sentinel is still black and fully self-linked after each
of the two inserts, and the erase then redirects its parent to the node
holding key 10 while leaving its colour and its left/right self-links
intact. -/
theorem C9_amended :
    (∀ (k0 : Int) (len0 : Nat),
      (nd (rb_init k0 () len0).s 0).red = false ∧
      (nd (rb_init k0 () len0).s 0).left = 0 ∧
      (nd (rb_init k0 () len0).s 0).right = 0 ∧
      (nd (rb_init k0 () len0).s 0).parent = 0 ∧ (rb_init k0 () len0).s.nil = 0) ∧
    ((nd tA.s tA.s.nil).red = false ∧ (nd tA.s tA.s.nil).left = tA.s.nil ∧
     (nd tA.s tA.s.nil).right = tA.s.nil ∧ (nd tA.s tA.s.nil).parent = tA.s.nil) ∧
    ((nd tAB.s tAB.s.nil).red = false ∧ (nd tAB.s tAB.s.nil).left = tAB.s.nil ∧
     (nd tAB.s tAB.s.nil).right = tAB.s.nil ∧ (nd tAB.s tAB.s.nil).parent = tAB.s.nil) ∧
    (erase tAB 20 = Except.ok (true, t9) ∧
     (nd t9.s t9.s.nil).parent = 1 ∧ (1 : Nat) ≠ t9.s.nil ∧ (nd t9.s 1).key = 10 ∧
     (nd t9.s t9.s.nil).red = false ∧
     (nd t9.s t9.s.nil).left = t9.s.nil ∧
     (nd t9.s t9.s.nil).right = t9.s.nil) :=
  ⟨fun _ _ => ⟨rfl, rfl, rfl, rfl, rfl⟩,
   ⟨rfl, rfl, rfl, rfl⟩,
   ⟨rfl, rfl, rfl, rfl⟩,
   ⟨rfl, rfl, by decide, rfl, rfl, rfl, rfl⟩⟩

/-- C10 counterexample: on one-element trees `{10}` built by each engine,
the old engine's `erase(20)` returns false leaving the tree unchanged and
its `contains(20)` returns false, while the new engine's `erase(20)`
raises `ElementNotFound` (decrementing `len_` to 0) and its `contains(20)`
raises as well — the two revisions are not equivalent on a key absent from
a non-empty tree. -/
theorem C10_absent_key_divergence :
    iter_keys oldA = [10] ∧ iter_keys tA.s = [10] ∧
    old_erase oldA 20 = (false, oldA) ∧ erase tA 20 = Except.error ⟨tA.s, 0⟩ ∧
    old_contains oldA 20 = false ∧ contains tA 20 = Except.error () :=
  ⟨rfl, rfl, rfl, rfl, rfl, rfl⟩

/-- C10 amended: whenever the key is present (`find_node` does not give
the sentinel) and the new engine's `len_` is nonzero, the two engines'
erase agree — both return true and produce the identical structural state
(the shared splice `erase_node` at the found node; the new engine
additionally decrements `len_`) — and both contains return true.  On a key
absent from a non-empty tree they diverge: the old engine returns false
and leaves the tree unchanged, the new one raises `ElementNotFound`. -/
theorem C10_agree_on_present (t : rb_tree Int Unit) (k : Int)
    (hp : find_node t.s k ≠ t.s.nil) (hl : t.len ≠ 0) :
    old_erase t.s k = (true, erase_node t.s (find_node t.s k)) ∧
    erase t k = Except.ok (true, ⟨erase_node t.s (find_node t.s k), t.len - 1⟩) ∧
    old_contains t.s k = true ∧ contains t k = Except.ok true := by
  refine ⟨?_, ?_, ?_, ?_⟩
  · unfold old_erase
    rw [if_neg hp]
  · unfold erase
    rw [if_neg hl, search_eq_find, if_neg hp]
  · unfold old_contains
    simp [hp]
  · unfold contains
    rw [search_eq_find, if_neg hp]
    simp [hp]

/-- Witness for `C10_agree_on_present` at the tree `{10}` and key 10. -/
theorem C10_agree_witness :
    old_erase tA.s 10 = (true, erase_node tA.s (find_node tA.s 10)) ∧
    erase tA 10 = Except.ok (true, ⟨erase_node tA.s (find_node tA.s 10), tA.len - 1⟩) ∧
    old_contains tA.s 10 = true ∧ contains tA 10 = Except.ok true :=
  C10_agree_on_present tA 10 (by decide) (by decide)

end ZelixSTL
